import Mathlib

/-!
Shallow embedding of `src/models/inventory/StockTransfer.ts` from the
`muhammadmp/books` repository, together with the parts of its external
collaborators (the linked invoice's line items and the ledger-posting
builder) that the verified properties need.  Quantities and monetary
amounts are modelled as exact rationals; JavaScript `undefined` is
modelled with `Option`, and JavaScript falsiness checks on strings and
numbers (`!x`) are made explicit.
-/

/-- JavaScript falsiness of an optional string: `undefined` and `""` are falsy. -/
def isFalsyStr : Option String → Bool
  | none => true
  | some s => s = ""

/-- JavaScript falsiness of an optional number: `undefined` and `0` are falsy. -/
def isFalsyNum : Option ℚ → Bool
  | none => true
  | some q => q = 0

/-- A line item of a stock transfer (`StockTransferItem`): item identifier,
rate and quantity may be absent in raw documents.  Modelled from the spec:
the class `StockTransferItem` itself is outside `src/`; the spec lists
`location` as a plain field of every line (item identifier, rate, quantity,
location), so it is embedded as always present. -/
structure StockTransferItem where
  item : Option String
  rate : Option ℚ
  quantity : Option ℚ
  location : String
deriving DecidableEq, Repr

/-- Document lifecycle status (`Draft | Submitted | Cancelled`). -/
inductive DocStatus where
  | draft
  | submitted
  | cancelled
deriving DecidableEq, Repr

/-- The stock-transfer document state used by the embedded operations:
direction flag (`isSales`, true for an outbound shipment), lifecycle
status, optional back reference to the originating invoice, line items
and the optional computed total. -/
structure StockTransferDoc where
  isSales : Bool
  status : DocStatus
  backReference : Option String
  items : List StockTransferItem
  grandTotal : Option ℚ
deriving DecidableEq, Repr

/-- Embeds `this.isSubmitted` of the document framework: status is `Submitted`. -/
def StockTransferDoc.isSubmitted (t : StockTransferDoc) : Bool :=
  t.status = DocStatus.submitted

/-- Embeds `this.isCancelled` of the document framework: status is `Cancelled`. -/
def StockTransferDoc.isCancelled (t : StockTransferDoc) : Bool :=
  t.status = DocStatus.cancelled

/-- A line of the linked invoice.  Modelled from the spec: the `Invoice`
collaborator is outside `src/`; each line has an item identifier, a
quantity, and a mutable `stockNotTransferred` counter that may be unset. -/
structure InvoiceItem where
  item : String
  quantity : ℚ
  stockNotTransferred : Option ℚ
deriving DecidableEq, Repr

/-- The ephemeral `TransferMap` (`Record<string, number>`), as an
association list with at most one binding per key. -/
abbrev TransferMap : Type := List (String × ℚ)

/-- Reading `m[k]` on a JS record: the bound value, or `undefined`. -/
def mapGet (m : TransferMap) (k : String) : Option ℚ :=
  match m with
  | [] => none
  | (k', v) :: rest => if k' = k then some v else mapGet rest k

/-- Writing `m[k] = v` on a JS record: overwrite the binding, or append a new one. -/
def mapSet (m : TransferMap) (k : String) (v : ℚ) : TransferMap :=
  match m with
  | [] => [(k, v)]
  | (k', v') :: rest => if k' = k then (k, v) :: rest else (k', v') :: mapSet rest k v

/-- One step of the `reduce` in `_getTransferMap`: skip the line if its item
is falsy (`!item.item`) or its quantity is falsy (`!item.quantity`),
otherwise add the quantity to the item's running total (`acc[item] ??= 0;
acc[item] += quantity`). -/
def transferMapStep (acc : TransferMap) (it : StockTransferItem) : TransferMap :=
  if isFalsyStr it.item then acc
  else if isFalsyNum it.quantity then acc
  else
    let i := it.item.getD ""
    let q := it.quantity.getD 0
    mapSet acc i ((mapGet acc i).getD 0 + q)

/-- Embeds `_getTransferMap`: aggregate the transfer's lines into an item → total
quantity record, starting from the empty record. -/
def StockTransferDoc.getTransferMap (t : StockTransferDoc) : TransferMap :=
  t.items.foldl transferMapStep []

/-- The body of the per-line loop of `_updateBackReference` for one invoice
row: look up `transferMap[item]`; if it is undefined the row is skipped;
otherwise write the new `stockNotTransferred` and the new residual,
using `min(n + t, q)` / `max(t + n - q, 0)` when the transfer is being
cancelled and `max(n - t, 0)` / `max(t - n, 0)` when it is being
submitted. -/
def updateLine (cancelled : Bool) (tm : TransferMap) (row : InvoiceItem) :
    TransferMap × InvoiceItem :=
  let n := row.stockNotTransferred.getD 0
  match mapGet tm row.item with
  | none => (tm, row)
  | some t =>
    if cancelled then
      (mapSet tm row.item (max (t + n - row.quantity) 0),
       { row with stockNotTransferred := some (min (n + t) row.quantity) })
    else
      (mapSet tm row.item (max (t - n) 0),
       { row with stockNotTransferred := some (max (n - t) 0) })

/-- The `for (const row of invoice.items)` loop of `_updateBackReference`:
update each row in stored order, threading the mutated transfer map into
the later rows. -/
def updateLines (cancelled : Bool) (tm : TransferMap) :
    List InvoiceItem → List InvoiceItem × TransferMap
  | [] => ([], tm)
  | r :: rs =>
    let p := updateLine cancelled tm r
    let q := updateLines cancelled p.1 rs
    (p.2 :: q.1, q.2)

/-- Embeds `_updateBackReference`, acting on the linked invoice's line list: a
no-op unless the transfer is submitted or cancelled, a no-op when
`backReference` is falsy, otherwise the line-by-line reconciliation with
the freshly built transfer map. -/
def updateBackReference (t : StockTransferDoc) (inv : List InvoiceItem) :
    List InvoiceItem :=
  if ¬ t.isCancelled ∧ ¬ t.isSubmitted then inv
  else if isFalsyStr t.backReference then inv
  else (updateLines t.isCancelled t.getTransferMap inv).1

/-- A sequence of reconciliation events: each event is a stock transfer
(submit or cancel) run through `_updateBackReference` against the same
invoice. -/
def applyEvents (ts : List StockTransferDoc) (inv : List InvoiceItem) :
    List InvoiceItem :=
  ts.foldl (fun acc t => updateBackReference t acc) inv

/-- Side of a ledger entry.  Modelled from the spec: `LedgerPosting` lives
outside `src/`; the spec describes a posting as an ordered sequence of
entries `(account, amount, side)`. -/
inductive Side where
  | debit
  | credit
deriving DecidableEq, Repr

/-- A ledger entry.  Modelled from the spec (see `Side`). -/
structure LedgerEntry where
  account : String
  amount : ℚ
  side : Side
deriving DecidableEq, Repr

/-- Sum of the debit amounts of a posting. -/
def sumDebits (p : List LedgerEntry) : ℚ :=
  (p.filter (fun e => e.side = Side.debit)).foldl (fun s e => s + e.amount) 0

/-- Sum of the credit amounts of a posting. -/
def sumCredits (p : List LedgerEntry) : ℚ :=
  (p.filter (fun e => e.side = Side.credit)).foldl (fun s e => s + e.amount) 0

/-- Embeds `posting.makeRoundOffEntry()`.  Modelled from the spec: after the two
primary lines a rounding-adjustment entry is appended so that total
debits equal total credits exactly; it debits the round-off account when
credits exceed debits and credits it otherwise. -/
def makeRoundOffEntry (roundOffAccount : String) (p : List LedgerEntry) :
    List LedgerEntry :=
  if sumDebits p ≤ sumCredits p then
    p ++ [⟨roundOffAccount, sumCredits p - sumDebits p, Side.debit⟩]
  else
    p ++ [⟨roundOffAccount, sumDebits p - sumCredits p, Side.credit⟩]

/-- The inventory-settings singleton read by `validateAccounts` and
`getPosting` (`fyo.singles.InventorySettings` / `fyo.getValue`). -/
structure InventorySettings where
  stockInHand : Option String
  costOfGoodsSold : Option String
  stockReceivedButNotBilled : Option String
deriving DecidableEq, Repr

/-- The ambient collaborator state the embedded operations consult:
settings, the set of existing ledger accounts (`fyo.db.exists`), the
field labels of the settings schema (`fyo.getField(...).label`), and the
round-off account used by the posting builder. -/
structure Env where
  settings : InventorySettings
  accounts : List String
  label : String → String
  roundOffAccount : String

/-- Embeds `this.fyo.singles.InventorySettings?.[setting]` for the three setting
names `validateAccounts` can ask for. -/
def settingValue (env : Env) (setting : String) : Option String :=
  if setting = "stockInHand" then env.settings.stockInHand
  else if setting = "costOfGoodsSold" then env.settings.costOfGoodsSold
  else if setting = "stockReceivedButNotBilled" then env.settings.stockReceivedButNotBilled
  else none

/-- The `settings` list built at the top of `validateAccounts`:
`stockInHand` always, then `costOfGoodsSold` for a sales (outbound)
transfer and `stockReceivedButNotBilled` otherwise. -/
def requiredSettings (t : StockTransferDoc) : List String :=
  if t.isSales then ["stockInHand", "costOfGoodsSold"]
  else ["stockInHand", "stockReceivedButNotBilled"]

/-- The message pushed for a falsy setting value. -/
def notSetMessage (env : Env) (setting : String) : String :=
  let lbl := env.label setting
  s!"{lbl} account not set in Inventory Settings."

/-- The message pushed for a set account that does not exist. -/
def doesNotExistMessage (v : String) : String :=
  s!"Account {v} does not exist."

/-- The body of the `for (const setting of settings)` loop of
`validateAccounts`, producing the message a setting contributes, if any:
falsy value → not-set message; value naming no existing account →
does-not-exist message. -/
def settingMessage (env : Env) (setting : String) : Option String :=
  let value := settingValue env setting
  if isFalsyStr value then some (notSetMessage env setting)
  else
    let v := value.getD ""
    if v ∈ env.accounts then none else some (doesNotExistMessage v)

/-- The `messages` array accumulated by `validateAccounts`. -/
def collectMessages (env : Env) (t : StockTransferDoc) : List String :=
  (requiredSettings t).filterMap (settingMessage env)

/-- Embeds `validateAccounts`: succeeds (`ok`) when no messages were collected,
otherwise throws one `ValidationError` carrying every message joined
with a space. -/
def validateAccounts (env : Env) (t : StockTransferDoc) : Except String Unit :=
  let messages := collectMessages env t
  if messages = [] then Except.ok ()
  else Except.error (String.intercalate " " messages)

/-- Embeds `getPosting`: first `validateAccounts` (its failure propagates), then
build the posting from `grandTotal ?? 0` — debit `costOfGoodsSold` /
credit `stockInHand` for a sales transfer, debit `stockInHand` / credit
`stockReceivedButNotBilled` otherwise — and append the round-off entry.
The declared result type admits `null` (`none`), mirroring
`Promise<LedgerPosting | null>`. -/
def getPosting (env : Env) (t : StockTransferDoc) :
    Except String (Option (List LedgerEntry)) :=
  match validateAccounts env t with
  | Except.error e => Except.error e
  | Except.ok _ =>
    let stockInHand := (settingValue env "stockInHand").getD ""
    let amount := t.grandTotal.getD 0
    let primary : List LedgerEntry :=
      if t.isSales then
        let costOfGoodsSold := (settingValue env "costOfGoodsSold").getD ""
        [⟨costOfGoodsSold, amount, Side.debit⟩, ⟨stockInHand, amount, Side.credit⟩]
      else
        let stockReceivedButNotBilled :=
          (settingValue env "stockReceivedButNotBilled").getD ""
        [⟨stockInHand, amount, Side.debit⟩,
         ⟨stockReceivedButNotBilled, amount, Side.credit⟩]
    Except.ok (some (makeRoundOffEntry env.roundOffAccount primary))

/-- A movement record produced by `_getTransferDetails`. -/
structure TransferDetail where
  item : String
  rate : ℚ
  quantity : ℚ
  fromLocation : Option String
  toLocation : Option String
deriving DecidableEq, Repr

/-- Embeds `_getTransferDetails`: one movement record per transfer line;
`fromLocation` is the line's location for a sales (outbound) transfer,
`toLocation` is the line's location for an inbound one, the other stays
`undefined`.  The non-null assertions `row.item!` / `row.rate!` /
`row.quantity!` are modelled by defaulting. -/
def getTransferDetails (t : StockTransferDoc) : List TransferDetail :=
  t.items.map (fun row =>
    if t.isSales then
      ⟨row.item.getD "", row.rate.getD 0, row.quantity.getD 0, some row.location, none⟩
    else
      ⟨row.item.getD "", row.rate.getD 0, row.quantity.getD 0, none, some row.location⟩)

/-! ### Association-list lemmas -/

theorem mapGet_mapSet_self (m : TransferMap) (k : String) (v : ℚ) :
    mapGet (mapSet m k v) k = some v := by
  induction m with
  | nil => simp [mapSet, mapGet]
  | cons p rest ih =>
    obtain ⟨k', v'⟩ := p
    by_cases h : k' = k
    · simp [mapSet, mapGet, h]
    · simp [mapSet, mapGet, h, ih]

theorem mapGet_mapSet_ne (m : TransferMap) (k j : String) (v : ℚ) (h : j ≠ k) :
    mapGet (mapSet m k v) j = mapGet m j := by
  induction m with
  | nil => simp [mapSet, mapGet, Ne.symm h]
  | cons p rest ih =>
    obtain ⟨k', v'⟩ := p
    by_cases h' : k' = k
    · subst h'
      simp [mapSet, mapGet, Ne.symm h]
    · simp only [mapSet, if_neg h']
      by_cases h'' : k' = j
      · simp [mapGet, h'']
      · simp [mapGet, h'', ih]

theorem mapGet_mem (m : TransferMap) (k : String) (v : ℚ)
    (h : mapGet m k = some v) : (k, v) ∈ m := by
  induction m with
  | nil => simp [mapGet] at h
  | cons p rest ih =>
    obtain ⟨k', v'⟩ := p
    by_cases h' : k' = k
    · subst h'
      have hv : v' = v := by simpa [mapGet] using h
      subst hv
      exact List.mem_cons_self _ _
    · simp only [mapGet, if_neg h'] at h
      exact List.mem_cons_of_mem _ (ih h)

/-- All values bound in a transfer map are non-negative. -/
def tmNonneg (m : TransferMap) : Prop := ∀ p ∈ m, 0 ≤ p.2

theorem mem_mapSet (m : TransferMap) (k : String) (v : ℚ) (p : String × ℚ)
    (h : p ∈ mapSet m k v) : p = (k, v) ∨ p ∈ m := by
  induction m with
  | nil => simpa [mapSet] using h
  | cons q rest ih =>
    obtain ⟨k', v'⟩ := q
    by_cases h' : k' = k
    · simp only [mapSet, if_pos h'] at h
      rcases List.mem_cons.mp h with rfl | h
      · exact Or.inl rfl
      · exact Or.inr (List.mem_cons_of_mem _ h)
    · simp only [mapSet, if_neg h'] at h
      rcases List.mem_cons.mp h with rfl | h
      · exact Or.inr (List.mem_cons_self _ _)
      · rcases ih h with h | h
        · exact Or.inl h
        · exact Or.inr (List.mem_cons_of_mem _ h)

theorem tmNonneg_mapSet (m : TransferMap) (k : String) (v : ℚ)
    (hm : tmNonneg m) (hv : 0 ≤ v) : tmNonneg (mapSet m k v) := by
  intro p hp
  rcases mem_mapSet m k v p hp with rfl | hp
  · exact hv
  · exact hm p hp

theorem tmNonneg_getD (m : TransferMap) (k : String) (hm : tmNonneg m) :
    0 ≤ (mapGet m k).getD 0 := by
  cases h : mapGet m k with
  | none => simp
  | some v => simpa using hm _ (mapGet_mem m k v h)

theorem tmNonneg_transferMapStep (acc : TransferMap) (it : StockTransferItem)
    (hacc : tmNonneg acc) (hq : 0 ≤ it.quantity.getD 0) :
    tmNonneg (transferMapStep acc it) := by
  unfold transferMapStep
  split
  · exact hacc
  · split
    · exact hacc
    · exact tmNonneg_mapSet _ _ _ hacc (add_nonneg (tmNonneg_getD _ _ hacc) hq)

theorem tmNonneg_foldl (items : List StockTransferItem) :
    ∀ acc : TransferMap, tmNonneg acc →
      (∀ it ∈ items, 0 ≤ it.quantity.getD 0) →
      tmNonneg (items.foldl transferMapStep acc) := by
  induction items with
  | nil => intro acc hacc _; simpa using hacc
  | cons it its ih =>
    intro acc hacc hits
    simp only [List.foldl_cons]
    exact ih _ (tmNonneg_transferMapStep acc it hacc (hits it (List.mem_cons_self _ _)))
      (fun x hx => hits x (List.mem_cons_of_mem _ hx))

theorem getTransferMap_nonneg (t : StockTransferDoc)
    (h : ∀ it ∈ t.items, 0 ≤ it.quantity.getD 0) :
    tmNonneg t.getTransferMap := by
  unfold StockTransferDoc.getTransferMap
  exact tmNonneg_foldl t.items [] (by intro p hp; cases hp) h

/-! ### The per-line bound invariant -/

/-- The spec's per-line invariant: `0 ≤ stockNotTransferred ≤ quantity`
(with an unset counter reading as 0, as in the code). -/
def lineOk (r : InvoiceItem) : Prop :=
  0 ≤ r.stockNotTransferred.getD 0 ∧ r.stockNotTransferred.getD 0 ≤ r.quantity

theorem updateLine_ok (c : Bool) (tm : TransferMap) (row : InvoiceItem)
    (htm : tmNonneg tm) (hrow : lineOk row) :
    lineOk (updateLine c tm row).2 ∧ tmNonneg (updateLine c tm row).1 := by
  obtain ⟨h0, hq⟩ := hrow
  cases hget : mapGet tm row.item with
  | none =>
    simp only [updateLine, hget]
    exact ⟨⟨h0, hq⟩, htm⟩
  | some t =>
    have ht : (0:ℚ) ≤ t := by simpa using htm _ (mapGet_mem tm row.item t hget)
    have hq0 : (0:ℚ) ≤ row.quantity := le_trans h0 hq
    cases c with
    | true =>
      simp only [updateLine, hget, if_true]
      refine ⟨⟨?_, ?_⟩, ?_⟩
      · exact le_min (add_nonneg h0 ht) hq0
      · exact min_le_right (row.stockNotTransferred.getD 0 + t) row.quantity
      · exact tmNonneg_mapSet _ _ _ htm (le_max_right _ _)
    | false =>
      simp only [updateLine, hget, Bool.false_eq_true, ite_false]
      refine ⟨⟨?_, ?_⟩, ?_⟩
      · exact le_max_right (row.stockNotTransferred.getD 0 - t) 0
      · exact max_le (le_trans (sub_le_self _ ht) hq) hq0
      · exact tmNonneg_mapSet _ _ _ htm (le_max_right _ _)

theorem updateLines_ok (c : Bool) (rows : List InvoiceItem) :
    ∀ tm : TransferMap, tmNonneg tm → (∀ r ∈ rows, lineOk r) →
      (∀ r ∈ (updateLines c tm rows).1, lineOk r) ∧
        tmNonneg (updateLines c tm rows).2 := by
  induction rows with
  | nil =>
    intro tm htm _
    refine ⟨?_, ?_⟩
    · intro r hr
      simp [updateLines] at hr
    · simpa [updateLines] using htm
  | cons r rs ih =>
    intro tm htm hrows
    have h1 := updateLine_ok c tm r htm (hrows r (List.mem_cons_self _ _))
    have h2 := ih (updateLine c tm r).1 h1.2
      (fun x hx => hrows x (List.mem_cons_of_mem _ hx))
    constructor
    · intro x hx
      simp only [updateLines] at hx
      rcases List.mem_cons.mp hx with rfl | hx
      · exact h1.1
      · exact h2.1 x hx
    · simpa only [updateLines] using h2.2

theorem updateBackReference_ok (t : StockTransferDoc) (inv : List InvoiceItem)
    (ht : ∀ it ∈ t.items, 0 ≤ it.quantity.getD 0)
    (hinv : ∀ r ∈ inv, lineOk r) :
    ∀ r ∈ updateBackReference t inv, lineOk r := by
  unfold updateBackReference
  split
  · exact hinv
  · split
    · exact hinv
    · exact (updateLines_ok _ inv _ (getTransferMap_nonneg t ht) hinv).1

/-! ### Claim C1 -/

/-- C1: for every invoice line with `0 ≤ stockNotTransferred ≤ quantity`,
after any sequence of submit/cancel reconciliation events run by
`_updateBackReference` with transfers of non-negative quantities, every
line still satisfies `0 ≤ stockNotTransferred ≤ quantity`. -/
theorem reconciliation_bounds (ts : List StockTransferDoc) :
    ∀ inv : List InvoiceItem,
      (∀ t ∈ ts, ∀ it ∈ t.items, 0 ≤ it.quantity.getD 0) →
      (∀ r ∈ inv, 0 ≤ r.stockNotTransferred.getD 0 ∧
        r.stockNotTransferred.getD 0 ≤ r.quantity) →
      ∀ r ∈ applyEvents ts inv,
        0 ≤ r.stockNotTransferred.getD 0 ∧
          r.stockNotTransferred.getD 0 ≤ r.quantity := by
  induction ts with
  | nil =>
    intro inv _ hinv r hr
    exact hinv r hr
  | cons t ts ih =>
    intro inv hts hinv
    have h1 : ∀ r ∈ updateBackReference t inv, lineOk r :=
      updateBackReference_ok t inv (hts t (List.mem_cons_self _ _)) hinv
    have h2 := ih (updateBackReference t inv)
      (fun x hx => hts x (List.mem_cons_of_mem _ hx)) h1
    intro r hr
    exact h2 r hr

/-- An outbound transfer of 4 units of item A, in submitted state. -/
def exSubmitFour : StockTransferDoc :=
  ⟨true, DocStatus.submitted, some "SINV-1", [⟨some "A", none, some 4, "Stores"⟩], none⟩

/-- A one-line invoice: item A, quantity 10, all of it still untransferred. -/
def exInvoiceTen : List InvoiceItem := [⟨"A", 10, some 10⟩]

/-- C1 witness: after submitting a 4-unit transfer against the quantity-10
line, the resulting line (`stockNotTransferred = 6`) satisfies the bounds. -/
theorem reconciliation_bounds_witness :
    0 ≤ (InvoiceItem.mk "A" 10 (some 6)).stockNotTransferred.getD 0 ∧
      (InvoiceItem.mk "A" 10 (some 6)).stockNotTransferred.getD 0 ≤
        (InvoiceItem.mk "A" 10 (some 6)).quantity := by
  have happ : applyEvents [exSubmitFour] exInvoiceTen = [⟨"A", 10, some 6⟩] := by
    norm_num [applyEvents, updateBackReference, StockTransferDoc.isCancelled,
      StockTransferDoc.isSubmitted, isFalsyStr, StockTransferDoc.getTransferMap,
      transferMapStep, isFalsyNum, mapSet, mapGet, updateLines, updateLine,
      exSubmitFour, exInvoiceTen]
    simp
  refine reconciliation_bounds [exSubmitFour] exInvoiceTen ?_ ?_ _ ?_
  · intro t ht it hit
    simp only [List.mem_singleton] at ht
    subst ht
    simp only [exSubmitFour, List.mem_singleton] at hit
    subst hit
    norm_num
  · intro r hr
    simp only [exInvoiceTen, List.mem_singleton] at hr
    subst hr
    norm_num
  · rw [happ]
    exact List.mem_singleton.mpr rfl

/-! ### Claim C3 -/

/-- An outbound transfer of 5 units of item A, in submitted state. -/
def exSubmitFive : StockTransferDoc :=
  ⟨true, DocStatus.submitted, some "SINV-2", [⟨some "A", none, some 5, "Stores"⟩], none⟩

/-- The same 5-unit transfer after cancellation. -/
def exCancelFive : StockTransferDoc :=
  ⟨true, DocStatus.cancelled, some "SINV-2", [⟨some "A", none, some 5, "Stores"⟩], none⟩

/-- C3 counterexample: with `q = 10`, pre-submit `n = 3` and transfer
quantity `t = 5`, submitting clamps the line to 0 and the subsequent
cancel raises it to `min(0 + 5, 10) = 5 ≠ 3`: submit-then-cancel does not
restore the pre-submit value for every transfer. -/
theorem submit_then_cancel_not_always_restores :
    updateBackReference exCancelFive
        (updateBackReference exSubmitFive [⟨"A", 10, some 3⟩])
      = [⟨"A", 10, some 5⟩] ∧
    updateBackReference exCancelFive
        (updateBackReference exSubmitFive [⟨"A", 10, some 3⟩])
      ≠ [⟨"A", 10, some 3⟩] := by
  have h : updateBackReference exCancelFive
      (updateBackReference exSubmitFive [⟨"A", 10, some 3⟩])
      = [⟨"A", 10, some 5⟩] := by
    norm_num [updateBackReference, StockTransferDoc.isCancelled,
      StockTransferDoc.isSubmitted, isFalsyStr, StockTransferDoc.getTransferMap,
      transferMapStep, isFalsyNum, mapSet, mapGet, updateLines, updateLine,
      exSubmitFive, exCancelFive]
    simp
    norm_num
  refine ⟨h, ?_⟩
  rw [h]
  intro hc
  have : ((5 : ℚ)) = 3 := by
    have := List.head_eq_of_cons_eq hc
    simpa using congrArg InvoiceItem.stockNotTransferred this
  norm_num at this

/-- C3 amended: submitting a transfer and then cancelling that same
transfer (same line items, hence the same rebuilt transfer map) restores
a single linked invoice line's `stockNotTransferred` to its pre-submit
value `n`, provided the transfer's aggregated quantity `t` for the item
does not exceed `n` (no over-transfer) and `n ≤ q`. -/
theorem submit_then_cancel_restores (s : Bool) (br : String)
    (its : List StockTransferItem) (gt gt' : Option ℚ)
    (i : String) (q n t : ℚ)
    (hbr : br ≠ "")
    (hmap : mapGet
      (StockTransferDoc.mk s DocStatus.submitted (some br) its gt).getTransferMap i
      = some t)
    (ht : t ≤ n) (hnq : n ≤ q) :
    updateBackReference (StockTransferDoc.mk s DocStatus.cancelled (some br) its gt')
      (updateBackReference
        (StockTransferDoc.mk s DocStatus.submitted (some br) its gt)
        [⟨i, q, some n⟩])
      = [⟨i, q, some n⟩] := by
  have hbr' : isFalsyStr (some br) = false := by simp [isFalsyStr, hbr]
  have hmap2 : mapGet
      (StockTransferDoc.mk s DocStatus.cancelled (some br) its gt').getTransferMap i
      = some t := hmap
  have h1 : updateBackReference
      (StockTransferDoc.mk s DocStatus.submitted (some br) its gt) [⟨i, q, some n⟩]
      = [⟨i, q, some (max (n - t) 0)⟩] := by
    simp [updateBackReference, StockTransferDoc.isCancelled,
      StockTransferDoc.isSubmitted, hbr', updateLines, updateLine, hmap]
  rw [h1, show max (n - t) 0 = n - t from max_eq_left (sub_nonneg.mpr ht)]
  have h2 : updateBackReference
      (StockTransferDoc.mk s DocStatus.cancelled (some br) its gt')
      [⟨i, q, some (n - t)⟩]
      = [⟨i, q, some (min (n - t + t) q)⟩] := by
    simp [updateBackReference, StockTransferDoc.isCancelled,
      StockTransferDoc.isSubmitted, hbr', updateLines, updateLine, hmap2]
  rw [h2, show n - t + t = n by ring, min_eq_left hnq]

/-- The 4-unit transfer of `exSubmitFour` after cancellation. -/
def exCancelFour : StockTransferDoc :=
  ⟨true, DocStatus.cancelled, some "SINV-1", [⟨some "A", none, some 4, "Stores"⟩], none⟩

/-- C3 witness: the spec's concrete instance `q = 10`, `n = 10`, `t = 4` —
submit takes the line to 6, cancelling the same transfer takes it back
to 10. -/
theorem submit_then_cancel_restores_witness :
    updateBackReference exCancelFour
      (updateBackReference exSubmitFour [⟨"A", 10, some 10⟩])
      = [⟨"A", 10, some 10⟩] := by
  have h := submit_then_cancel_restores true "SINV-1"
    [⟨some "A", none, some 4, "Stores"⟩] none none "A" 10 10 4
    (by decide)
    (by norm_num [StockTransferDoc.getTransferMap, transferMapStep, isFalsyStr,
      isFalsyNum, mapSet, mapGet])
    (by norm_num) (by norm_num)
  exact h

/-! ### Claim C8 -/

/-- C8: when the same item appears on several invoice lines, submit-time
reconciliation consumes the transferred quantity first-come-first-served
in stored line order, threading the residual `max(t - n₁, 0)` into the
later line. -/
theorem fcfs_residual_threading (s : Bool) (br i loc : String) (rt : Option ℚ)
    (gt : Option ℚ) (q1 q2 n1 n2 tq : ℚ)
    (hbr : br ≠ "") (hi : i ≠ "") (htq : tq ≠ 0) :
    updateBackReference
      (StockTransferDoc.mk s DocStatus.submitted (some br)
        [⟨some i, rt, some tq, loc⟩] gt)
      [⟨i, q1, some n1⟩, ⟨i, q2, some n2⟩]
    = [⟨i, q1, some (max (n1 - tq) 0)⟩,
       ⟨i, q2, some (max (n2 - max (tq - n1) 0) 0)⟩] := by
  have hbr' : isFalsyStr (some br) = false := by simp [isFalsyStr, hbr]
  have hmap : (StockTransferDoc.mk s DocStatus.submitted (some br)
      [⟨some i, rt, some tq, loc⟩] gt).getTransferMap = [(i, tq)] := by
    simp [StockTransferDoc.getTransferMap, transferMapStep, isFalsyStr,
      isFalsyNum, mapSet, mapGet, hi, htq]
  simp [updateBackReference, StockTransferDoc.isCancelled,
    StockTransferDoc.isSubmitted, hbr', hmap, updateLines, updateLine,
    mapGet, mapSet]

/-- A 7-unit outbound transfer of item B, in submitted state. -/
def exSubmitSeven : StockTransferDoc :=
  ⟨true, DocStatus.submitted, some "SINV-3", [⟨some "B", none, some 7, "Stores"⟩], none⟩

/-- C8 witness: two lines for item B with quantity 5 and
`stockNotTransferred = 5` each, against a 7-unit transfer: the first line
drops to 0 (residual 2), the second to `max(5 - 2, 0) = 3`. -/
theorem fcfs_residual_threading_witness :
    updateBackReference exSubmitSeven [⟨"B", 5, some 5⟩, ⟨"B", 5, some 5⟩]
      = [⟨"B", 5, some 0⟩, ⟨"B", 5, some 3⟩] := by
  have h := fcfs_residual_threading true "SINV-3" "B" "Stores" none none
    5 5 5 5 7 (by decide) (by decide) (by norm_num)
  refine h.trans ?_
  norm_num

/-! ### Claim C10 -/

/-- C10 amended: for a line processed with residual `t`, the amount applied
to the line equals the amount removed from the residual: on submit
`n - n' = t - t'` (the difference between `stockNotTransferred` and the
residual is invariant), on cancel `n' - n = t - t'` (their sum is
invariant), whenever `0 ≤ n ≤ q`. -/
theorem updateLine_conserves (tm : TransferMap) (row : InvoiceItem) (t : ℚ)
    (hget : mapGet tm row.item = some t)
    (_h0 : 0 ≤ row.stockNotTransferred.getD 0)
    (_hq : row.stockNotTransferred.getD 0 ≤ row.quantity) :
    row.stockNotTransferred.getD 0
        - (updateLine false tm row).2.stockNotTransferred.getD 0
      = t - (mapGet (updateLine false tm row).1 row.item).getD 0
    ∧ (updateLine true tm row).2.stockNotTransferred.getD 0
        - row.stockNotTransferred.getD 0
      = t - (mapGet (updateLine true tm row).1 row.item).getD 0 := by
  constructor
  · simp only [updateLine, hget, Bool.false_eq_true, ite_false,
      mapGet_mapSet_self, Option.getD_some]
    rcases le_total t (row.stockNotTransferred.getD 0) with h | h
    · rw [max_eq_left (sub_nonneg.mpr h), max_eq_right (sub_nonpos.mpr h)]
      ring
    · rw [max_eq_right (sub_nonpos.mpr h), max_eq_left (sub_nonneg.mpr h)]
      ring
  · simp only [updateLine, hget, ite_true, mapGet_mapSet_self, Option.getD_some]
    rcases le_total (row.stockNotTransferred.getD 0 + t) row.quantity with h | h
    · rw [min_eq_left h, max_eq_right (by linarith)]
      ring
    · rw [min_eq_right h, max_eq_left (by linarith)]
      ring

/-- C10 counterexample to the sum clause: on a submit update with `n = 5`,
`t = 3`, `q = 10` the line goes to 2 and the residual to 0, so the sum of
`stockNotTransferred` and the residual drops from 8 to 2 — the sum is not
invariant across a submit line update (the difference is). -/
theorem updateLine_sum_not_invariant :
    (updateLine false [(("A" : String), (3 : ℚ))] ⟨"A", 10, some 5⟩).2.stockNotTransferred.getD 0
        + (mapGet (updateLine false [(("A" : String), (3 : ℚ))] ⟨"A", 10, some 5⟩).1 "A").getD 0
      ≠ (InvoiceItem.mk "A" 10 (some 5)).stockNotTransferred.getD 0
        + (mapGet [(("A" : String), (3 : ℚ))] "A").getD 0 := by
  norm_num [updateLine, mapGet, mapSet]

/-- C10 witness: the conservation equalities at `n = 5`, `t = 3`, `q = 10`:
on submit `5 - 2 = 3 - 0`, on cancel `8 - 5 = 3 - 0`. -/
theorem updateLine_conserves_witness :
    (InvoiceItem.mk "A" 10 (some 5)).stockNotTransferred.getD 0
        - (updateLine false [(("A" : String), (3 : ℚ))] ⟨"A", 10, some 5⟩).2.stockNotTransferred.getD 0
      = 3 - (mapGet (updateLine false [(("A" : String), (3 : ℚ))] ⟨"A", 10, some 5⟩).1 "A").getD 0
    ∧ (updateLine true [(("A" : String), (3 : ℚ))] ⟨"A", 10, some 5⟩).2.stockNotTransferred.getD 0
        - (InvoiceItem.mk "A" 10 (some 5)).stockNotTransferred.getD 0
      = 3 - (mapGet (updateLine true [(("A" : String), (3 : ℚ))] ⟨"A", 10, some 5⟩).1 "A").getD 0 := by
  have h := updateLine_conserves [(("A" : String), (3 : ℚ))] ⟨"A", 10, some 5⟩ 3
    (by norm_num [mapGet]) (by norm_num) (by norm_num)
  exact h

/-! ### Claim C4 -/

/-- A transfer line contributes to item `i`'s aggregated quantity exactly
when its item identifier is truthy and equals `i` and its quantity is
truthy (defined and non-zero). -/
def contributes (i : String) (it : StockTransferItem) : Bool :=
  !(isFalsyStr it.item) && !(isFalsyNum it.quantity) && (it.item.getD "" = i)

/-- The aggregated transferred quantity of item `i` over a line list:
the sum of the quantities of the contributing lines. -/
def transferTotal (i : String) : List StockTransferItem → ℚ
  | [] => 0
  | it :: its =>
    (if contributes i it then it.quantity.getD 0 else 0) + transferTotal i its

theorem transferMapStep_getD (acc : TransferMap) (it : StockTransferItem)
    (i : String) :
    (mapGet (transferMapStep acc it) i).getD 0
      = (mapGet acc i).getD 0
        + (if contributes i it then it.quantity.getD 0 else 0) := by
  by_cases h1 : isFalsyStr it.item
  · simp [transferMapStep, h1, contributes]
  · by_cases h2 : isFalsyNum it.quantity
    · simp [transferMapStep, h2, contributes]
    · by_cases h3 : it.item.getD "" = i
      · subst h3
        simp [transferMapStep, h1, h2, contributes, mapGet_mapSet_self]
      · rw [show transferMapStep acc it
            = mapSet acc (it.item.getD "")
                ((mapGet acc (it.item.getD "")).getD 0 + it.quantity.getD 0) by
          simp [transferMapStep, h1, h2]]
        rw [mapGet_mapSet_ne _ _ _ _ (fun hh => h3 hh.symm)]
        simp [contributes, h3]

theorem transferMapStep_isSome (acc : TransferMap) (it : StockTransferItem)
    (i : String) :
    (mapGet (transferMapStep acc it) i).isSome
      = ((mapGet acc i).isSome || contributes i it) := by
  by_cases h1 : isFalsyStr it.item
  · simp [transferMapStep, h1, contributes]
  · by_cases h2 : isFalsyNum it.quantity
    · simp [transferMapStep, h2, contributes]
    · by_cases h3 : it.item.getD "" = i
      · subst h3
        simp [transferMapStep, h1, h2, contributes, mapGet_mapSet_self]
      · rw [show transferMapStep acc it
            = mapSet acc (it.item.getD "")
                ((mapGet acc (it.item.getD "")).getD 0 + it.quantity.getD 0) by
          simp [transferMapStep, h1, h2]]
        rw [mapGet_mapSet_ne _ _ _ _ (fun hh => h3 hh.symm)]
        simp [contributes, h3]

theorem foldl_transferMapStep_getD (items : List StockTransferItem) :
    ∀ acc : TransferMap, ∀ i : String,
      (mapGet (items.foldl transferMapStep acc) i).getD 0
        = (mapGet acc i).getD 0 + transferTotal i items := by
  induction items with
  | nil => intro acc i; simp [transferTotal]
  | cons it its ih =>
    intro acc i
    simp only [List.foldl_cons, transferTotal]
    rw [ih, transferMapStep_getD]
    ring

theorem foldl_transferMapStep_isSome (items : List StockTransferItem) :
    ∀ acc : TransferMap, ∀ i : String,
      (mapGet (items.foldl transferMapStep acc) i).isSome
        = ((mapGet acc i).isSome || items.any (contributes i)) := by
  induction items with
  | nil => intro acc i; simp
  | cons it its ih =>
    intro acc i
    simp only [List.foldl_cons, List.any_cons]
    rw [ih, transferMapStep_isSome]
    cases (mapGet acc i).isSome <;> cases contributes i it <;>
      cases its.any (contributes i) <;> rfl

/-- The transfer used in the C4 counterexample: a single line with a
defined item identifier and a defined quantity equal to zero. -/
def zeroQtyTransfer : StockTransferDoc :=
  ⟨true, DocStatus.draft, none, [⟨some "A", none, some 0, "Stores"⟩], none⟩

/-- C4 counterexample: the line has a defined item (`"A"`) and a defined
quantity (`0`), yet `_getTransferMap` skips it — the falsiness check
`!item.quantity` discards zero quantities, so no entry for `"A"` is
created (the claim predicts `"A" ↦ 0`). -/
theorem getTransferMap_zero_qty_skipped :
    zeroQtyTransfer.items = [⟨some "A", none, some 0, "Stores"⟩]
    ∧ mapGet zeroQtyTransfer.getTransferMap "A" = none := by
  refine ⟨rfl, ?_⟩
  norm_num [zeroQtyTransfer, StockTransferDoc.getTransferMap, transferMapStep,
    isFalsyStr, isFalsyNum, mapGet]

/-- C4 amended: `_getTransferMap` starts from the empty mapping and sums,
per item, the quantities of exactly the lines with a truthy (defined,
non-empty) item identifier and a truthy (defined, non-zero) quantity;
all other lines — including those whose quantity is zero — are skipped
without error, and an item gets an entry exactly when some line
contributes to it. -/
theorem getTransferMap_totals (t : StockTransferDoc) (i : String) :
    (mapGet t.getTransferMap i).getD 0 = transferTotal i t.items
    ∧ (mapGet t.getTransferMap i).isSome = t.items.any (contributes i) := by
  constructor
  · have h := foldl_transferMapStep_getD t.items [] i
    simpa [StockTransferDoc.getTransferMap, mapGet] using h
  · have h := foldl_transferMapStep_isSome t.items [] i
    simpa [StockTransferDoc.getTransferMap, mapGet] using h

/-! ### Claims C2 and C5 -/

theorem makeRoundOffEntry_pair (r d c : String) (a : ℚ) :
    makeRoundOffEntry r [⟨d, a, Side.debit⟩, ⟨c, a, Side.credit⟩]
      = [⟨d, a, Side.debit⟩, ⟨c, a, Side.credit⟩, ⟨r, 0, Side.debit⟩] := by
  simp [makeRoundOffEntry, sumDebits, sumCredits]

/-- C2: whenever validation passes and the transfer total `A ≥ 0` (with
`A = 0` when `grandTotal` is undefined), the returned posting is exactly
one debit entry and one credit entry both of amount `A` plus a rounding
entry, and its summed debits equal its summed credits; no error is
raised even when `A = 0`. -/
theorem getPosting_balanced (env : Env) (t : StockTransferDoc)
    (p : List LedgerEntry)
    (hvalid : validateAccounts env t = Except.ok ())
    (_hA : 0 ≤ t.grandTotal.getD 0)
    (hp : getPosting env t = Except.ok (some p)) :
    p.map (fun e => (e.amount, e.side))
      = [(t.grandTotal.getD 0, Side.debit), (t.grandTotal.getD 0, Side.credit),
         ((0 : ℚ), Side.debit)]
    ∧ sumDebits p = sumCredits p := by
  cases hs : t.isSales
  case false =>
    simp only [getPosting, hvalid, hs, Bool.false_eq_true, ite_false,
      makeRoundOffEntry_pair, Except.ok.injEq, Option.some.injEq] at hp
    subst hp
    refine ⟨rfl, ?_⟩
    simp [sumDebits, sumCredits]
  case true =>
    simp only [getPosting, hvalid, hs, ite_true,
      makeRoundOffEntry_pair, Except.ok.injEq, Option.some.injEq] at hp
    subst hp
    refine ⟨rfl, ?_⟩
    simp [sumDebits, sumCredits]

/-- A settings environment where all three accounts are set and exist. -/
def envAll : Env :=
  ⟨⟨some "SIH", some "COGS", some "SRNB"⟩, ["SIH", "COGS", "SRNB"],
   fun s => s, "RND"⟩

/-- A draft outbound transfer whose `grandTotal` is still undefined. -/
def exDraftNoTotal : StockTransferDoc :=
  ⟨true, DocStatus.draft, none, [], none⟩

theorem getPosting_envAll_noTotal :
    getPosting envAll exDraftNoTotal
      = Except.ok (some [⟨"COGS", 0, Side.debit⟩, ⟨"SIH", 0, Side.credit⟩,
                         ⟨"RND", 0, Side.debit⟩]) := by
  have hvalid : validateAccounts envAll exDraftNoTotal = Except.ok () := by rfl
  simp only [getPosting, hvalid]
  norm_num [envAll, exDraftNoTotal, settingValue, makeRoundOffEntry_pair]
  rfl

/-- C2 witness: with all accounts configured and `grandTotal` undefined
(`A = 0`), the posting has the debit/credit/rounding shape with zero
amounts and is balanced. -/
theorem getPosting_balanced_witness :
    ([⟨"COGS", 0, Side.debit⟩, ⟨"SIH", 0, Side.credit⟩,
      ⟨"RND", 0, Side.debit⟩] : List LedgerEntry).map (fun e => (e.amount, e.side))
      = [((0 : ℚ), Side.debit), (0, Side.credit), (0, Side.debit)]
    ∧ sumDebits [⟨"COGS", 0, Side.debit⟩, ⟨"SIH", 0, Side.credit⟩,
        ⟨"RND", 0, Side.debit⟩]
      = sumCredits [⟨"COGS", 0, Side.debit⟩, ⟨"SIH", 0, Side.credit⟩,
        ⟨"RND", 0, Side.debit⟩] := by
  have h := getPosting_balanced envAll exDraftNoTotal
    [⟨"COGS", 0, Side.debit⟩, ⟨"SIH", 0, Side.credit⟩, ⟨"RND", 0, Side.debit⟩]
    (by rfl) (le_refl 0) getPosting_envAll_noTotal
  simpa [exDraftNoTotal] using h

/-- C5 counterexample: `grandTotal` is undefined, yet `getPosting` does not
return `null` — it builds a posting with amount 0 (the code defaults the
amount with `?? 0` and has no `return null` path). -/
theorem getPosting_no_null_on_undefined_total :
    exDraftNoTotal.grandTotal = none
    ∧ getPosting envAll exDraftNoTotal ≠ Except.ok none := by
  refine ⟨rfl, ?_⟩
  rw [getPosting_envAll_noTotal]
  intro hc
  simp at hc

/-- C5 amended: `getPosting` never returns `null`; it raises exactly the
validation failures of `validateAccounts`, and in every other case —
including an undefined `grandTotal`, which defaults the amount to 0 —
it returns a built posting. -/
theorem getPosting_never_null (env : Env) (t : StockTransferDoc) :
    getPosting env t ≠ Except.ok none
    ∧ ∀ e, (getPosting env t = Except.error e
        ↔ validateAccounts env t = Except.error e) := by
  cases hv : validateAccounts env t
  case error e =>
    constructor
    · simp [getPosting, hv]
    · intro e'
      simp [getPosting, hv]
  case ok u =>
    cases u
    constructor
    · cases hs : t.isSales <;> simp [getPosting, hv, hs]
    · intro e'
      cases hs : t.isSales <;> simp [getPosting, hv, hs]

/-! ### Claim C6 -/

/-- C6: `validateAccounts` checks every required setting before failing:
it succeeds iff the collected message list is empty; when it fails the
single raised error is all collected messages joined; every unset
required setting and every set-but-nonexistent account contributes its
message; and every collected message comes from a required setting. -/
theorem validateAccounts_aggregates (env : Env) (t : StockTransferDoc) :
    (validateAccounts env t = Except.ok () ↔ collectMessages env t = [])
    ∧ (collectMessages env t ≠ [] →
        validateAccounts env t
          = Except.error (String.intercalate " " (collectMessages env t)))
    ∧ (∀ s ∈ requiredSettings t,
        (isFalsyStr (settingValue env s) = true →
          notSetMessage env s ∈ collectMessages env t)
        ∧ (∀ v, settingValue env s = some v → v ≠ "" → v ∉ env.accounts →
            doesNotExistMessage v ∈ collectMessages env t))
    ∧ (∀ m ∈ collectMessages env t,
        ∃ s ∈ requiredSettings t, settingMessage env s = some m) := by
  refine ⟨?_, ?_, ?_, ?_⟩
  · by_cases h : collectMessages env t = [] <;> simp [validateAccounts, h]
  · intro h
    simp [validateAccounts, h]
  · intro s hs
    constructor
    · intro hfalsy
      have hmsg : settingMessage env s = some (notSetMessage env s) := by
        simp [settingMessage, hfalsy]
      exact List.mem_filterMap.mpr ⟨s, hs, hmsg⟩
    · intro v hv hne hnm
      have hfal2 : isFalsyStr (some v) = false := by
        simp [isFalsyStr, hne]
      have hmsg : settingMessage env s = some (doesNotExistMessage v) := by
        simp [settingMessage, hv, hfal2, hnm]
      exact List.mem_filterMap.mpr ⟨s, hs, hmsg⟩
  · intro m hm
    exact List.mem_filterMap.mp hm

/-- A settings environment where no account is configured at all. -/
def envEmpty : Env := ⟨⟨none, none, none⟩, [], fun s => s, "RND"⟩

/-- C6 witness: for an outbound transfer with both `stockInHand` and
`costOfGoodsSold` unset, the collected error messages mention both. -/
theorem validateAccounts_aggregates_witness :
    notSetMessage envEmpty "stockInHand"
        ∈ collectMessages envEmpty exDraftNoTotal
    ∧ notSetMessage envEmpty "costOfGoodsSold"
        ∈ collectMessages envEmpty exDraftNoTotal := by
  have h := validateAccounts_aggregates envEmpty exDraftNoTotal
  exact ⟨(h.2.2.1 "stockInHand" (by decide)).1 (by rfl),
         (h.2.2.1 "costOfGoodsSold" (by decide)).1 (by rfl)⟩

/-! ### Claim C7 -/

theorem makeRoundOffEntry_take_two (r : String) (e1 e2 : LedgerEntry) :
    (makeRoundOffEntry r [e1, e2]).take 2 = [e1, e2] := by
  unfold makeRoundOffEntry
  split <;> rfl

/-- C7: a posting built by `getPosting` opens with a debit of
`costOfGoodsSold` and a credit of `stockInHand` for an outbound (sales)
transfer, and with a debit of `stockInHand` and a credit of
`stockReceivedButNotBilled` for an inbound one, each for the transfer's
total amount. -/
theorem getPosting_direction (env : Env) (t : StockTransferDoc)
    (p : List LedgerEntry)
    (hp : getPosting env t = Except.ok (some p)) :
    (t.isSales = true →
      p.take 2 = [⟨(settingValue env "costOfGoodsSold").getD "",
                    t.grandTotal.getD 0, Side.debit⟩,
                  ⟨(settingValue env "stockInHand").getD "",
                    t.grandTotal.getD 0, Side.credit⟩])
    ∧ (t.isSales = false →
      p.take 2 = [⟨(settingValue env "stockInHand").getD "",
                    t.grandTotal.getD 0, Side.debit⟩,
                  ⟨(settingValue env "stockReceivedButNotBilled").getD "",
                    t.grandTotal.getD 0, Side.credit⟩]) := by
  cases hv : validateAccounts env t
  case error e =>
    simp [getPosting, hv] at hp
  case ok u =>
    cases u
    cases hs : t.isSales
    case false =>
      simp only [getPosting, hv, hs, Bool.false_eq_true, ite_false,
        Except.ok.injEq, Option.some.injEq] at hp
      subst hp
      constructor
      · intro h
        simp at h
      · intro _
        exact makeRoundOffEntry_take_two _ _ _
    case true =>
      simp only [getPosting, hv, hs, ite_true,
        Except.ok.injEq, Option.some.injEq] at hp
      subst hp
      constructor
      · intro _
        exact makeRoundOffEntry_take_two _ _ _
      · intro h
        simp at h

/-- An outbound draft transfer with total 100 and no line items. -/
def exSaleHundred : StockTransferDoc :=
  ⟨true, DocStatus.draft, none, [], some 100⟩

/-- The posting `getPosting` builds for `exSaleHundred` under `envAll`. -/
def exSalePosting : List LedgerEntry :=
  [⟨"COGS", 100, Side.debit⟩, ⟨"SIH", 100, Side.credit⟩, ⟨"RND", 0, Side.debit⟩]

theorem getPosting_envAll_sale :
    getPosting envAll exSaleHundred = Except.ok (some exSalePosting) := by
  have hvalid : validateAccounts envAll exSaleHundred = Except.ok () := by rfl
  simp only [getPosting, hvalid]
  norm_num [envAll, exSaleHundred, exSalePosting, settingValue,
    makeRoundOffEntry_pair]
  rfl

/-- C7 witness: the outbound posting for amount 100 under `envAll` starts
with a 100 debit of `COGS` and a 100 credit of `SIH`. -/
theorem getPosting_direction_witness :
    exSalePosting.take 2
      = [⟨"COGS", 100, Side.debit⟩, ⟨"SIH", 100, Side.credit⟩] := by
  have h := (getPosting_direction envAll exSaleHundred exSalePosting
    getPosting_envAll_sale).1 rfl
  simpa [envAll, settingValue, exSaleHundred] using h

/-! ### Claim C9 -/

/-- C9: every movement record of `_getTransferDetails` carries the line's
data with exactly one of `fromLocation`/`toLocation` populated: the
`fromLocation` for an outbound (sales) transfer, the `toLocation` for an
inbound one. -/
theorem getTransferDetails_one_location (t : StockTransferDoc) (k : Nat)
    (it : StockTransferItem) (hit : t.items[k]? = some it) :
    (t.isSales = true →
      (getTransferDetails t)[k]?
        = some ⟨it.item.getD "", it.rate.getD 0, it.quantity.getD 0,
                some it.location, none⟩)
    ∧ (t.isSales = false →
      (getTransferDetails t)[k]?
        = some ⟨it.item.getD "", it.rate.getD 0, it.quantity.getD 0,
                none, some it.location⟩)
    ∧ (∀ d ∈ getTransferDetails t,
        d.fromLocation.isSome = !d.toLocation.isSome) := by
  refine ⟨?_, ?_, ?_⟩
  · intro hs
    simp [getTransferDetails, List.getElem?_map, hit, hs]
  · intro hs
    simp [getTransferDetails, List.getElem?_map, hit, hs]
  · intro d hd
    simp only [getTransferDetails, List.mem_map] at hd
    obtain ⟨x, _, rfl⟩ := hd
    cases hs : t.isSales <;> simp [hs]

/-- C9 witness: the single line of `exSubmitFour` (outbound) yields a
record with `fromLocation = some "Stores"` and `toLocation = none`. -/
theorem getTransferDetails_one_location_witness :
    (getTransferDetails exSubmitFour)[0]?
      = some ⟨"A", 0, 4, some "Stores", none⟩ := by
  have h := (getTransferDetails_one_location exSubmitFour 0
    ⟨some "A", none, some 4, "Stores"⟩ (by rfl)).1 rfl
  simpa using h
